import Mathlib

/-!
Shallow embedding of the segment-merge and batch-generation logic of
`skills/qwen3-tts-mlx/scripts/batch_dubbing.py`.

Audio samples are modelled as rational numbers (exact values of the
floating-point amplitudes), sample rates as naturals, speakers as strings.
Python's `int()` conversion (truncation toward zero) is `pyInt`;
`np.zeros(n)` for an integer `n` is `npZeros` (it fails for negative `n`).
The `try/except` of `merge_audio_files` is modelled by an `Option`-valued
loop: a `none` outcome corresponds to a caught exception and a returned
`False`.
-/

set_option autoImplicit false

namespace BatchDubbing

/-- One produced audio segment: its samples, the sample rate reported by
`sf.read`, and its speaker label. -/
structure Segment where
  samples : List ℚ
  rate : ℕ
  speaker : String
deriving DecidableEq

/-- The hard-coded rate of `merge_audio_files` (`sample_rate = 24000`,
line 108 of `batch_dubbing.py`). -/
def sample_rate : ℕ := 24000

/-- Python `int()` on an exact rational: truncation toward zero. -/
def pyInt (q : ℚ) : ℤ :=
  if 0 ≤ q then ⌊q⌋ else -⌊-q⌋

/-- Model of `np.zeros(n)` for an integer count: a run of zero samples,
failing (raising `ValueError`) when the count is negative. -/
def npZeros (n : ℤ) : Option (List ℚ) :=
  if n < 0 then none else some (List.replicate n.toNat 0)

/-- The gap chosen at a boundary (lines 115-119):
`character_switch_gap if prev_speaker and prev_speaker != speaker else
silence_gap`.  Python truthiness: `None` and `""` are falsy. -/
def chooseGap (silence_gap character_switch_gap : ℚ) :
    Option String → String → ℚ
  | none, _ => silence_gap
  | some p, cur =>
      if p ≠ "" ∧ p ≠ cur then character_switch_gap else silence_gap

/-- The numpy merge loop of `merge_audio_files` (lines 110-123): `nfiles`
is `len(segment_files)`, `i` the running index over
`zip(segment_files, speakers)`, `prev` the current `prev_speaker`.  Each
element pairs a file read by `sf.read` (samples and reported rate; the
rate is discarded by the code) with its speaker.  A `none` result models a
raised-and-caught exception. -/
def mergeLoop (sg cg : ℚ) (nfiles : ℕ) :
    ℕ → Option String → List ((List ℚ × ℕ) × String) → Option (List ℚ)
  | _, _, [] => some []
  | i, prev, p :: rest =>
    if i < nfiles - 1 then
      match npZeros (pyInt ((sample_rate : ℚ) * chooseGap sg cg prev p.2)) with
      | none => none
      | some z =>
        match mergeLoop sg cg nfiles (i + 1) (some p.2) rest with
        | none => none
        | some r => some (p.1.1 ++ (z ++ r))
      else
        match mergeLoop sg cg nfiles (i + 1) (some p.2) rest with
        | none => none
        | some r => some (p.1.1 ++ r)

/-- Outcome of `merge_audio_files`: the returned boolean, the samples
written by `sf.write`, and the rate passed to `sf.write`. -/
structure MergeResult where
  success : Bool
  samples : List ℚ
  rate : ℕ
deriving DecidableEq

/-- Embedding of `merge_audio_files(segment_files, output_path,
silence_gap, character_switch_gap, speakers)`.  The first (ffmpeg list)
loop never runs ffmpeg, but it leaves `prev_speaker` bound to the speaker
of the last zipped pair; that value carries over uninitialised into the
numpy loop.  An empty zip makes `np.concatenate([])` raise, caught as
`False`. -/
def merge_audio_files (sg cg : ℚ) (segment_files : List (List ℚ × ℕ))
    (speakers : List String) : MergeResult :=
  match mergeLoop sg cg segment_files.length 0
      (((segment_files.zip speakers).getLast?).map Prod.snd)
      (segment_files.zip speakers) with
  | none => ⟨false, [], sample_rate⟩
  | some out =>
    if (segment_files.zip speakers).isEmpty then ⟨false, [], sample_rate⟩
    else ⟨true, out, sample_rate⟩

/-- The merge applied to a list of segments whose files and speakers are
aligned, as produced by `run_batch_dubbing`. -/
def mergeSegments (sg cg : ℚ) (segs : List Segment) : MergeResult :=
  merge_audio_files sg cg (segs.map fun s => (s.samples, s.rate))
    (segs.map Segment.speaker)

/-- Structural form of the numpy loop on an aligned segment list: gap
handling happens exactly when a further segment follows. -/
def alignedLoop (sg cg : ℚ) : Option String → List Segment → Option (List ℚ)
  | _, [] => some []
  | _, [s] => some s.samples
  | prev, s :: t :: rest =>
    match npZeros (pyInt ((sample_rate : ℚ) * chooseGap sg cg prev s.speaker)),
        alignedLoop sg cg (some s.speaker) (t :: rest) with
    | some z, some r => some (s.samples ++ (z ++ r))
    | _, _ => none

/-- Total value of the aligned loop when no exception occurs. -/
def alignedJoin (sg cg : ℚ) : Option String → List Segment → List ℚ
  | _, [] => []
  | _, [s] => s.samples
  | prev, s :: t :: rest =>
    s.samples ++
      (List.replicate (pyInt ((sample_rate : ℚ) *
        chooseGap sg cg prev s.speaker)).toNat 0 ++
        alignedJoin sg cg (some s.speaker) (t :: rest))

/-- One descriptor of the dubbing JSON script: each field is present or
absent, as `dict.get` sees it. -/
structure DubSeg where
  text : Option String
  voice : Option String
  speaker : Option String
  lang_code : Option String
  lang : Option String
  instruct : Option String
deriving DecidableEq

/-- Voice extraction of `run_batch_dubbing` (line 152):
`seg.get("voice", seg.get("speaker", "Vivian"))`. -/
def segVoice (s : DubSeg) : String :=
  s.voice.getD (s.speaker.getD "Vivian")

/-- Three-digit zero padding, as in the format spec 03d applied to
i+1. -/
def pad3 (n : ℕ) : String :=
  if n < 10 then "00" ++ toString n
  else if n < 100 then "0" ++ toString n
  else toString n

/-- Per-segment output path stem (line 159):
`f"seg_{i+1:03d}_{voice}.wav"`. -/
def segmentPathName (i : ℕ) (voice : String) : String :=
  "seg_" ++ pad3 (i + 1) ++ "_" ++ voice ++ ".wav"

/-- The generation loop of `run_batch_dubbing` (lines 150-174): `gen`
models the success of `generate_segment` (an external subprocess) for the
descriptor at a given index.  On success both lists are appended to; on
failure neither. -/
def runLoop (gen : ℕ → DubSeg → Bool) :
    ℕ → List DubSeg → List String × List String
  | _, [] => ([], [])
  | i, s :: rest =>
    let acc := runLoop gen (i + 1) rest
    if gen i s then
      (segmentPathName i (segVoice s) :: acc.1, segVoice s :: acc.2)
    else acc

/-- Construction of `segment_files` and `speakers` by
`run_batch_dubbing`, starting from index 0. -/
def run_batch_generation (gen : ℕ → DubSeg → Bool) (segs : List DubSeg) :
    List String × List String :=
  runLoop gen 0 segs

/-- Descriptors paired with their indices, starting at `i`
(`enumerate`). -/
def enumFrom (i : ℕ) : List DubSeg → List (ℕ × DubSeg)
  | [] => []
  | s :: rest => (i, s) :: enumFrom (i + 1) rest

/-- Speaker label of the segment at position `i` (empty when out of
range). -/
def speakerAt (segs : List Segment) (i : ℕ) : String :=
  ((segs.get? i).map Segment.speaker).getD ""

/-- The speaker the code actually consults as predecessor for the
boundary after segment `i`: for `i = 0` the stale `prev_speaker` left by
the first loop, i.e. the last segment's speaker; for `i = j+1` the
speaker of segment `j`. -/
def predSpeaker (segs : List Segment) : ℕ → String
  | 0 => ((segs.getLast?).map Segment.speaker).getD ""
  | j + 1 => speakerAt segs j

/-- Predecessor speaker sequence of the aligned loop once `prev` holds
`some p`: position 0 sees `p`, position `j+1` sees the speaker of segment
`j`. -/
def predFrom (p : String) (segs : List Segment) : ℕ → String
  | 0 => p
  | j + 1 => speakerAt segs j

/-- Assembly of segment samples with `k i` zero samples after segment `i`
at each internal boundary: the reference shape used to state boundary
properties. -/
def assembleK (k : ℕ → ℕ) : List Segment → List ℚ
  | [] => []
  | [s] => s.samples
  | s :: t :: rest =>
    s.samples ++ (List.replicate (k 0) (0 : ℚ) ++
      assembleK (fun j => k (j + 1)) (t :: rest))

/-! ### Basic lemmas about the merge loop -/

lemma chooseGap_none (sg cg : ℚ) (sp : String) :
    chooseGap sg cg none sp = sg := rfl

lemma chooseGap_some (sg cg : ℚ) (p sp : String) :
    chooseGap sg cg (some p) sp =
      if p ≠ "" ∧ p ≠ sp then cg else sg := rfl

lemma mergeLoop_cons (sg cg : ℚ) (nf i : ℕ) (prev : Option String)
    (a : List ℚ) (rt : ℕ) (sp : String)
    (rest : List ((List ℚ × ℕ) × String)) :
    mergeLoop sg cg nf i prev (((a, rt), sp) :: rest) =
      if i < nf - 1 then
        match npZeros (pyInt ((sample_rate : ℚ) * chooseGap sg cg prev sp)) with
        | none => none
        | some z =>
          match mergeLoop sg cg nf (i + 1) (some sp) rest with
          | none => none
          | some r => some (a ++ (z ++ r))
      else
        match mergeLoop sg cg nf (i + 1) (some sp) rest with
        | none => none
        | some r => some (a ++ r) := rfl

lemma alignedLoop_cons2 (sg cg : ℚ) (prev : Option String) (s t : Segment)
    (rest : List Segment) :
    alignedLoop sg cg prev (s :: t :: rest) =
      match npZeros (pyInt ((sample_rate : ℚ) * chooseGap sg cg prev s.speaker)),
          alignedLoop sg cg (some s.speaker) (t :: rest) with
      | some z, some r => some (s.samples ++ (z ++ r))
      | _, _ => none := rfl

lemma alignedJoin_cons2 (sg cg : ℚ) (prev : Option String) (s t : Segment)
    (rest : List Segment) :
    alignedJoin sg cg prev (s :: t :: rest) =
      s.samples ++
        (List.replicate (pyInt ((sample_rate : ℚ) *
          chooseGap sg cg prev s.speaker)).toNat 0 ++
          alignedJoin sg cg (some s.speaker) (t :: rest)) := rfl

lemma chooseGap_nonneg (sg cg : ℚ) (hg : 0 ≤ sg) (hc : 0 ≤ cg)
    (prev : Option String) (sp : String) : 0 ≤ chooseGap sg cg prev sp := by
  cases prev with
  | none => exact hg
  | some p =>
    rw [chooseGap_some]
    split
    · exact hc
    · exact hg

lemma pyInt_of_nonneg (q : ℚ) (h : 0 ≤ q) : pyInt q = ⌊q⌋ := if_pos h

lemma npZeros_pyInt_of_nonneg (q : ℚ) (h : 0 ≤ q) :
    npZeros (pyInt q) = some (List.replicate (pyInt q).toNat 0) := by
  have h1 : pyInt q = ⌊q⌋ := pyInt_of_nonneg q h
  have h2 : ¬ pyInt q < 0 := by
    rw [h1]
    exact not_lt.mpr (Int.floor_nonneg.mpr h)
  simp [npZeros, h2]

lemma rate_mul_gap_nonneg (sg cg : ℚ) (hg : 0 ≤ sg) (hc : 0 ≤ cg)
    (prev : Option String) (sp : String) :
    (0 : ℚ) ≤ (sample_rate : ℚ) * chooseGap sg cg prev sp :=
  mul_nonneg (by norm_num [sample_rate]) (chooseGap_nonneg sg cg hg hc prev sp)

lemma alignedLoop_eq_some (sg cg : ℚ) (hg : 0 ≤ sg) (hc : 0 ≤ cg) :
    ∀ (segs : List Segment) (prev : Option String),
      alignedLoop sg cg prev segs = some (alignedJoin sg cg prev segs) := by
  intro segs
  induction segs with
  | nil => intro prev; simp [alignedLoop, alignedJoin]
  | cons s rest IH =>
    intro prev
    cases rest with
    | nil => simp [alignedLoop, alignedJoin]
    | cons t rest2 =>
      simp [alignedLoop, alignedJoin,
        npZeros_pyInt_of_nonneg _ (rate_mul_gap_nonneg sg cg hg hc prev s.speaker),
        IH]

lemma mergeLoop_map_eq_alignedLoop (sg cg : ℚ) (nf : ℕ) :
    ∀ (segs : List Segment) (i : ℕ) (prev : Option String),
      i + segs.length = nf →
      mergeLoop sg cg nf i prev
        (segs.map fun u => ((u.samples, u.rate), u.speaker)) =
      alignedLoop sg cg prev segs := by
  intro segs
  induction segs with
  | nil => intro i prev _; rfl
  | cons s rest IH =>
    intro i prev h
    cases rest with
    | nil =>
      have hcond : ¬ i < nf - 1 := by
        simp at h
        omega
      rw [List.map_cons, List.map_nil, mergeLoop_cons, if_neg hcond]
      show some (s.samples ++ []) = some s.samples
      rw [List.append_nil]
    | cons t rest2 =>
      have hcond : i < nf - 1 := by
        simp at h
        omega
      have hIH := IH (i + 1) (some s.speaker) (by simp at h ⊢; omega)
      rw [List.map_cons, mergeLoop_cons, if_pos hcond, hIH, alignedLoop_cons2]
      cases npZeros (pyInt ((sample_rate : ℚ) * chooseGap sg cg prev s.speaker)) with
      | none => rfl
      | some z =>
        cases alignedLoop sg cg (some s.speaker) (t :: rest2) with
        | none => rfl
        | some r => rfl

lemma mergeSegments_nil (sg cg : ℚ) :
    mergeSegments sg cg [] = ⟨false, [], sample_rate⟩ := rfl

lemma mergeSegments_eq_of_ne_nil (sg cg : ℚ) (hg : 0 ≤ sg) (hc : 0 ≤ cg) :
    ∀ (segs : List Segment), segs ≠ [] →
      mergeSegments sg cg segs =
        ⟨true, alignedJoin sg cg ((segs.getLast?).map Segment.speaker) segs,
          sample_rate⟩ := by
  intro segs h
  cases segs with
  | nil => exact absurd rfl h
  | cons s rest =>
    have hmap : ((s :: rest).map fun u => (u.samples, u.rate)).zip
        ((s :: rest).map Segment.speaker) =
        (s :: rest).map fun u => ((u.samples, u.rate), u.speaker) :=
      List.zip_map' _ _ _
    have hlast : (((s :: rest).map fun u =>
        ((u.samples, u.rate), u.speaker)).getLast?).map Prod.snd =
        ((s :: rest).getLast?).map Segment.speaker := by
      rw [List.getLast?_map, Option.map_map]
      rfl
    have hloop : mergeLoop sg cg (s :: rest).length 0
        (((s :: rest).getLast?).map Segment.speaker)
        ((s :: rest).map fun u => ((u.samples, u.rate), u.speaker)) =
        some (alignedJoin sg cg (((s :: rest).getLast?).map Segment.speaker)
          (s :: rest)) := by
      rw [mergeLoop_map_eq_alignedLoop sg cg _ _ 0 _ (by simp),
        alignedLoop_eq_some sg cg hg hc]
    show merge_audio_files sg cg ((s :: rest).map fun u => (u.samples, u.rate))
        ((s :: rest).map Segment.speaker) = _
    unfold merge_audio_files
    rw [hmap, List.length_map, hlast, hloop, List.map_cons]
    rfl

lemma alignedJoin_single (sg cg : ℚ) (prev : Option String) (s : Segment) :
    alignedJoin sg cg prev [s] = s.samples := rfl

lemma pyInt_eq_div (q : ℚ) (n : ℤ) (d : ℕ) (hq : q = (n : ℚ) / (d : ℚ))
    (hn : 0 ≤ n) : pyInt q = n / (d : ℤ) := by
  subst hq
  rw [pyInt_of_nonneg _ (div_nonneg (by exact_mod_cast hn) (by positivity))]
  exact Rat.floor_intCast_div_natCast n d

lemma pyInt_zero : pyInt (0 : ℚ) = 0 := by
  rw [pyInt_of_nonneg _ le_rfl]
  exact Int.floor_zero

lemma chooseGap_zero (prev : Option String) (sp : String) :
    chooseGap 0 0 prev sp = 0 := by
  cases prev with
  | none => rfl
  | some p =>
    rw [chooseGap_some]
    split <;> rfl

lemma zeroBlock_of_gap_zero (prev : Option String) (sp : String) :
    List.replicate (pyInt ((sample_rate : ℚ) *
      chooseGap 0 0 prev sp)).toNat (0 : ℚ) = [] := by
  rw [chooseGap_zero, mul_zero, pyInt_zero]
  rfl

lemma alignedJoin_zero_gaps :
    ∀ (segs : List Segment) (prev : Option String),
      alignedJoin 0 0 prev segs = (segs.map Segment.samples).flatten := by
  intro segs
  induction segs with
  | nil => intro prev; rfl
  | cons s rest IH =>
    intro prev
    cases rest with
    | nil => simp [alignedJoin_single]
    | cons t rest2 =>
      rw [alignedJoin_cons2, zeroBlock_of_gap_zero, IH]
      simp

lemma alignedJoin_head (sg cg : ℚ) (prev : Option String) (s : Segment)
    (rest : List Segment) :
    ∃ mid, alignedJoin sg cg prev (s :: rest) = s.samples ++ mid := by
  cases rest with
  | nil => exact ⟨[], by rw [alignedJoin_single, List.append_nil]⟩
  | cons t rest2 => exact ⟨_, alignedJoin_cons2 sg cg prev s t rest2⟩

lemma alignedJoin_last (sg cg : ℚ) :
    ∀ (segs : List Segment) (prev : Option String) (h : segs ≠ []),
      ∃ front, alignedJoin sg cg prev segs =
        front ++ (segs.getLast h).samples := by
  intro segs
  induction segs with
  | nil => intro prev h; exact absurd rfl h
  | cons s rest IH =>
    intro prev h
    cases rest with
    | nil => exact ⟨[], by rw [alignedJoin_single]; rfl⟩
    | cons t rest2 =>
      obtain ⟨front, hf⟩ := IH (some s.speaker) (by simp)
      refine ⟨s.samples ++ (List.replicate (pyInt ((sample_rate : ℚ) *
        chooseGap sg cg prev s.speaker)).toNat 0 ++ front), ?_⟩
      have hlast : (s :: t :: rest2).getLast h = (t :: rest2).getLast (by simp) :=
        List.getLast_cons_cons s t rest2
      rw [alignedJoin_cons2, hf, hlast]
      simp [List.append_assoc]

lemma merge_audio_files_rate (sg cg : ℚ) (fs : List (List ℚ × ℕ))
    (sps : List String) : (merge_audio_files sg cg fs sps).rate = sample_rate := by
  unfold merge_audio_files
  split
  · rfl
  · split <;> rfl

lemma mergeLoop_rate_independent (sg cg : ℚ) (nf : ℕ) (r : ℕ) :
    ∀ (segs : List Segment) (i : ℕ) (prev : Option String),
      mergeLoop sg cg nf i prev (segs.map fun u => ((u.samples, r), u.speaker)) =
      mergeLoop sg cg nf i prev (segs.map fun u => ((u.samples, u.rate), u.speaker)) := by
  intro segs
  induction segs with
  | nil => intro i prev; rfl
  | cons s rest IH =>
    intro i prev
    rw [List.map_cons, List.map_cons, mergeLoop_cons, mergeLoop_cons, IH]

lemma assembleK_cons2 (k : ℕ → ℕ) (s t : Segment) (rest : List Segment) :
    assembleK k (s :: t :: rest) =
      s.samples ++ (List.replicate (k 0) (0 : ℚ) ++
        assembleK (fun j => k (j + 1)) (t :: rest)) := rfl

lemma assembleK_congr :
    ∀ (segs : List Segment) (k₁ k₂ : ℕ → ℕ), (∀ i, k₁ i = k₂ i) →
      assembleK k₁ segs = assembleK k₂ segs := by
  intro segs
  induction segs with
  | nil => intro k₁ k₂ _; rfl
  | cons s rest IH =>
    intro k₁ k₂ hk
    cases rest with
    | nil => rfl
    | cons t rest2 =>
      rw [assembleK_cons2, assembleK_cons2, hk 0,
        IH (fun j => k₁ (j + 1)) (fun j => k₂ (j + 1)) (fun j => hk (j + 1))]

lemma speakerAt_cons_zero (s : Segment) (rest : List Segment) :
    speakerAt (s :: rest) 0 = s.speaker := rfl

lemma speakerAt_cons_succ (s : Segment) (rest : List Segment) (j : ℕ) :
    speakerAt (s :: rest) (j + 1) = speakerAt rest j := rfl

lemma alignedJoin_eq_assembleK (sg cg : ℚ) :
    ∀ (segs : List Segment) (p : String),
      alignedJoin sg cg (some p) segs =
      assembleK (fun i => (pyInt ((sample_rate : ℚ) *
        chooseGap sg cg (some (predFrom p segs i)) (speakerAt segs i))).toNat)
        segs := by
  intro segs
  induction segs with
  | nil => intro p; rfl
  | cons s rest IH =>
    intro p
    cases rest with
    | nil => rfl
    | cons t rest2 =>
      rw [alignedJoin_cons2, assembleK_cons2, IH s.speaker]
      have hk : ∀ j, (pyInt ((sample_rate : ℚ) *
          chooseGap sg cg (some (predFrom s.speaker (t :: rest2) j))
            (speakerAt (t :: rest2) j))).toNat =
          (pyInt ((sample_rate : ℚ) *
          chooseGap sg cg (some (predFrom p (s :: t :: rest2) (j + 1)))
            (speakerAt (s :: t :: rest2) (j + 1)))).toNat := by
        intro j
        cases j with
        | zero => rfl
        | succ j2 => rfl
      rw [assembleK_congr (t :: rest2) _ _ hk]
      rfl

lemma runLoop_eq (gen : ℕ → DubSeg → Bool) :
    ∀ (segs : List DubSeg) (i : ℕ),
      runLoop gen i segs =
        (((enumFrom i segs).filter fun p => gen p.1 p.2).map
            (fun p => segmentPathName p.1 (segVoice p.2)),
         ((enumFrom i segs).filter fun p => gen p.1 p.2).map
            (fun p => segVoice p.2)) := by
  intro segs
  induction segs with
  | nil => intro i; rfl
  | cons s rest IH =>
    intro i
    simp only [runLoop, enumFrom, List.filter_cons, IH]
    cases hgen : gen i s <;> simp [hgen]

lemma alignedJoin_map_rate (sg cg : ℚ) (r : ℕ) :
    ∀ (segs : List Segment) (prev : Option String),
      alignedJoin sg cg prev (segs.map fun s => { s with rate := r }) =
      alignedJoin sg cg prev segs := by
  intro segs
  induction segs with
  | nil => intro prev; rfl
  | cons s rest IH =>
    intro prev
    cases rest with
    | nil => rfl
    | cons t rest2 =>
      show alignedJoin sg cg prev
          ({ s with rate := r } :: { t with rate := r } ::
            rest2.map fun u => { u with rate := r }) = _
      rw [alignedJoin_cons2, alignedJoin_cons2]
      have := IH (some s.speaker)
      rw [List.map_cons] at this
      rw [this]

/-! ### Claim theorems -/

/-- C1: the spec says the gap between segments `i` and `i+1` is the
speaker-change gap exactly when `segments[i].speaker` differs from
`segments[i+1].speaker`, dependent only on those two speakers.  The code
instead consults the stale `prev_speaker`: with speakers A, B, B,
silence gap 0 and switch gap 1/8192 s (2 samples at 24000 Hz), it inserts
a switch gap between the two same-speaker B segments (claimed output
would be [1, 0, 0, 2, 3]). -/
theorem c1_code_eval :
    (mergeSegments 0 (1/8192)
      [⟨[1], 24000, "A"⟩, ⟨[2], 24000, "B"⟩, ⟨[3], 24000, "B"⟩]).samples
      = [1, 0, 0, 2, 0, 0, 3] ∧
    ([1, 0, 0, 2, 0, 0, 3] : List ℚ) ≠ [1, 0, 0, 2, 3] := by
  constructor
  · rw [mergeSegments_eq_of_ne_nil 0 (1/8192) (by norm_num) (by norm_num) _
      (by simp)]
    show alignedJoin _ _ _ _ = _
    rw [alignedJoin_cons2, alignedJoin_cons2]
    simp only [List.getLast?_cons_cons, List.getLast?_singleton,
      Option.map_some']
    rw [chooseGap_some, if_pos (by decide), chooseGap_some, if_pos (by decide)]
    rw [pyInt_eq_div _ 375 128 (by norm_num [sample_rate]) (by norm_num)]
    norm_num [List.replicate_succ]
    rfl
  · decide

/-- Evaluation of the merge at the spec's worked example: speakers A then
B, default gap 0, switch gap 0.5 s.  The code uses its fixed 24000 rate,
so `int(24000 * 0.5) = 12000` zero samples are inserted. -/
lemma c2_eval :
    mergeSegments 0 (1/2) [⟨[1, 1], 2, "A"⟩, ⟨[2, 2], 2, "B"⟩] =
      ⟨true, [1, 1] ++ (List.replicate 12000 0 ++ [2, 2]), sample_rate⟩ := by
  rw [mergeSegments_eq_of_ne_nil 0 (1/2) (by norm_num) (by norm_num) _
    (by simp)]
  simp only [List.getLast?_cons_cons, List.getLast?_singleton,
    Option.map_some']
  rw [alignedJoin_cons2, chooseGap_some, if_pos (by decide)]
  rw [pyInt_eq_div _ 12000 1 (by norm_num [sample_rate]) (by norm_num)]
  norm_num [Int.toNat_ofNat, alignedJoin_single]
  decide

/-- C2 counterexample: on the spec's example the merge does not return
[1, 1, 0, 2, 2]. -/
theorem c2_counterexample :
    (mergeSegments 0 (1/2) [⟨[1, 1], 2, "A"⟩, ⟨[2, 2], 2, "B"⟩]).samples ≠
      [1, 1, 0, 2, 2] := by
  intro hEq
  have h := (hEq.symm).trans (congrArg MergeResult.samples c2_eval)
  have hlen := congrArg List.length h
  simp only [List.length_append, List.length_replicate, List.length_cons,
    List.length_nil] at hlen
  omega

/-- C2 amended: the merge ignores the segments' 2 Hz rate; it inserts
`int(0.5 * 24000) = 12000` zero samples and writes at 24000. -/
theorem c2_amended :
    mergeSegments 0 (1/2) [⟨[1, 1], 2, "A"⟩, ⟨[2, 2], 2, "B"⟩] =
      ⟨true, [1, 1] ++ (List.replicate 12000 0 ++ [2, 2]), sample_rate⟩ :=
  c2_eval

/-- C3 counterexample: with gap 1/128 s between two same-speaker
24000 Hz segments, `gap * rate = 187.5`; rounding to nearest (both
standard and banker's give 188) disagrees with the code, which truncates
(`int`) to 187 inserted zeros. -/
theorem c3_counterexample :
    (mergeSegments (1/128) 0 [⟨[1], 24000, "A"⟩, ⟨[2], 24000, "A"⟩]).samples
      = [1] ++ (List.replicate 187 0 ++ [2]) ∧
    round ((1/128 : ℚ) * (sample_rate : ℚ)) = 188 ∧
    (187 : ℕ) ≠ 188 := by
  refine ⟨?_, ?_, by decide⟩
  · rw [mergeSegments_eq_of_ne_nil (1/128) 0 (by norm_num) (by norm_num) _
      (by simp)]
    show alignedJoin _ _ _ _ = _
    simp only [List.getLast?_cons_cons, List.getLast?_singleton,
      Option.map_some']
    rw [alignedJoin_cons2, chooseGap_some, if_neg (by simp)]
    rw [pyInt_eq_div _ 375 2 (by norm_num [sample_rate]) (by norm_num)]
    norm_num [Int.toNat_ofNat, alignedJoin_single]
    decide
  · rw [round_eq]
    norm_num [sample_rate]

/-- C3 amended: the count is `int(gap * 24000)` (truncation at the fixed
rate); in particular zero-duration gaps insert zero samples, so the
merged output is the direct, bit-for-bit concatenation of the segments'
samples. -/
theorem c3_amended (segs : List Segment) (h : segs ≠ []) :
    (mergeSegments 0 0 segs).samples = (segs.map Segment.samples).flatten := by
  rw [mergeSegments_eq_of_ne_nil 0 0 le_rfl le_rfl segs h]
  exact alignedJoin_zero_gaps segs _

/-- Witness for `c3_amended` at a concrete two-segment input. -/
theorem c3_amended_witness :
    (mergeSegments 0 0 [⟨[1, 2], 24000, "A"⟩, ⟨[3], 24000, "B"⟩]).samples =
      [1, 2, 3] :=
  (c3_amended _ (by simp)).trans rfl

/-- C4 counterexample: two segments with rates 8000 and 16000 merge
successfully (full output, no error); the code never inspects the rates
returned by `sf.read`. -/
theorem c4_counterexample :
    (⟨[1], 8000, "A"⟩ : Segment).rate ≠ (⟨[2], 16000, "A"⟩ : Segment).rate ∧
    mergeSegments 0 0 [⟨[1], 8000, "A"⟩, ⟨[2], 16000, "A"⟩] =
      ⟨true, [1, 2], sample_rate⟩ := by
  refine ⟨by decide, ?_⟩
  rw [mergeSegments_eq_of_ne_nil 0 0 le_rfl le_rfl _ (by simp)]
  simp only [List.getLast?_cons_cons, List.getLast?_singleton,
    Option.map_some']
  rw [alignedJoin_cons2, zeroBlock_of_gap_zero]
  rfl

/-- C4 amended: there is no sample-rate validation; any non-empty
segment list, rates equal or not, merges successfully. -/
theorem c4_amended (sg cg : ℚ) (hg : 0 ≤ sg) (hc : 0 ≤ cg)
    (segs : List Segment) (h : segs ≠ []) :
    (mergeSegments sg cg segs).success = true := by
  rw [mergeSegments_eq_of_ne_nil sg cg hg hc segs h]

/-- Witness for `c4_amended` at a mismatched-rate input. -/
theorem c4_amended_witness :
    (mergeSegments 0 0 [⟨[1], 8000, "A"⟩, ⟨[2], 16000, "A"⟩]).success =
      true :=
  c4_amended 0 0 le_rfl le_rfl _ (by simp)

/-- C5 counterexample: a single segment whose rate is 8000 merges
successfully, but the written output rate is the fixed 24000, not the
input rate. -/
theorem c5_counterexample :
    (mergeSegments 0 0 [⟨[1], 8000, "A"⟩]).success = true ∧
    (mergeSegments 0 0 [⟨[1], 8000, "A"⟩]).rate ≠
      (⟨[1], 8000, "A"⟩ : Segment).rate := by
  rw [mergeSegments_eq_of_ne_nil 0 0 le_rfl le_rfl _ (by simp)]
  exact ⟨rfl, by decide⟩

/-- C5 amended: the output is always written at the fixed rate 24000, and
the whole merge result is independent of the segments' rates. -/
theorem c5_amended (sg cg : ℚ) (hg : 0 ≤ sg) (hc : 0 ≤ cg)
    (segs : List Segment) (r : ℕ) :
    (mergeSegments sg cg segs).rate = sample_rate ∧
    mergeSegments sg cg (segs.map fun s => { s with rate := r }) =
      mergeSegments sg cg segs := by
  refine ⟨merge_audio_files_rate sg cg _ _, ?_⟩
  cases segs with
  | nil => rfl
  | cons s rest =>
    rw [mergeSegments_eq_of_ne_nil sg cg hg hc (s :: rest) (by simp),
      mergeSegments_eq_of_ne_nil sg cg hg hc
        ((s :: rest).map fun u => { u with rate := r }) (by simp)]
    have hlast : (((s :: rest).map fun u => { u with rate := r }).getLast?).map
        Segment.speaker = ((s :: rest).getLast?).map Segment.speaker := by
      rw [List.getLast?_map, Option.map_map]
      rfl
    rw [hlast, alignedJoin_map_rate]

/-- Witness for `c5_amended` at a concrete input. -/
theorem c5_amended_witness :
    (mergeSegments 0 0 [⟨[1], 8000, "A"⟩]).rate = sample_rate ∧
    mergeSegments 0 0 (([⟨[1], 8000, "A"⟩] : List Segment).map
        fun s => { s with rate := 48000 }) =
      mergeSegments 0 0 [⟨[1], 8000, "A"⟩] :=
  c5_amended 0 0 le_rfl le_rfl _ 48000

/-- C6: the merged output starts with the first segment's samples (no
leading silence), ends with the last segment's samples (no trailing
silence), and the gap condition treats a missing (`None`) or empty
previous-speaker marker as not a speaker change. -/
theorem c6_theorem (sg cg : ℚ) (hg : 0 ≤ sg) (hc : 0 ≤ cg)
    (segs : List Segment) (h : segs ≠ []) :
    (∃ mid, (mergeSegments sg cg segs).samples =
      (segs.head h).samples ++ mid) ∧
    (∃ front, (mergeSegments sg cg segs).samples =
      front ++ (segs.getLast h).samples) ∧
    (∀ sp : String,
      chooseGap sg cg none sp = sg ∧ chooseGap sg cg (some "") sp = sg) := by
  rw [mergeSegments_eq_of_ne_nil sg cg hg hc segs h]
  refine ⟨?_, alignedJoin_last sg cg segs _ h, ?_⟩
  · cases segs with
    | nil => exact absurd rfl h
    | cons s rest => exact alignedJoin_head sg cg _ s rest
  · intro sp
    refine ⟨chooseGap_none sg cg sp, ?_⟩
    rw [chooseGap_some, if_neg (by simp)]

/-- Witness for `c6_theorem` at a concrete two-segment input. -/
theorem c6_witness :
    (∃ mid, (mergeSegments 0 0 [⟨[1], 24000, "A"⟩, ⟨[2], 24000, "B"⟩]).samples =
      (([⟨[1], 24000, "A"⟩, ⟨[2], 24000, "B"⟩] : List Segment).head
        (by simp)).samples ++ mid) ∧
    (∃ front, (mergeSegments 0 0 [⟨[1], 24000, "A"⟩, ⟨[2], 24000, "B"⟩]).samples =
      front ++ (([⟨[1], 24000, "A"⟩, ⟨[2], 24000, "B"⟩] : List Segment).getLast
        (by simp)).samples) ∧
    (∀ sp : String,
      chooseGap 0 0 none sp = 0 ∧ chooseGap 0 0 (some "") sp = 0) :=
  c6_theorem 0 0 le_rfl le_rfl _ (by simp)

/-- C7: a single-element input merges to exactly that segment's samples,
successfully, with no gap inserted. -/
theorem c7_theorem (sg cg : ℚ) (s : Segment) :
    mergeSegments sg cg [s] = ⟨true, s.samples, sample_rate⟩ := by
  have hmap : ([s].map fun u => (u.samples, u.rate)).zip
      ([s].map Segment.speaker) =
      [s].map fun u => ((u.samples, u.rate), u.speaker) :=
    List.zip_map' _ _ _
  have hlast : (([s].map fun u =>
      ((u.samples, u.rate), u.speaker)).getLast?).map Prod.snd =
      ([s].getLast?).map Segment.speaker := by
    rw [List.getLast?_map, Option.map_map]
    rfl
  have hloop : mergeLoop sg cg [s].length 0
      (([s].getLast?).map Segment.speaker)
      ([s].map fun u => ((u.samples, u.rate), u.speaker)) =
      some s.samples := by
    rw [mergeLoop_map_eq_alignedLoop sg cg _ _ 0 _ (by simp)]
    rfl
  show merge_audio_files sg cg ([s].map fun u => (u.samples, u.rate))
      ([s].map Segment.speaker) = _
  unfold merge_audio_files
  rw [hmap, List.length_map, hlast, hloop, List.map_cons]
  rfl

/-- C8 counterexample: with speakers A then "" (empty string), the
speakers differ, so the claimed rule demands the character-switch gap
(2 samples at gap 1/8192 s); Python truthiness makes the code insert the
default gap instead (here 0 samples). -/
theorem c8_counterexample :
    (⟨[2], 24000, ""⟩ : Segment).speaker ≠ (⟨[1], 24000, "A"⟩ : Segment).speaker ∧
    (pyInt ((sample_rate : ℚ) * (1/8192))).toNat = 2 ∧
    (mergeSegments 0 (1/8192) [⟨[1], 24000, "A"⟩, ⟨[2], 24000, ""⟩]).samples =
      [1, 2] ∧
    ([1, 2] : List ℚ) ≠ [1, 0, 0, 2] := by
  refine ⟨by decide, ?_, ?_, by decide⟩
  · rw [pyInt_eq_div _ 375 128 (by norm_num [sample_rate]) (by norm_num)]
    decide
  · rw [mergeSegments_eq_of_ne_nil 0 (1/8192) (by norm_num) (by norm_num) _
      (by simp)]
    show alignedJoin _ _ _ _ = _
    simp only [List.getLast?_cons_cons, List.getLast?_singleton,
      Option.map_some']
    rw [alignedJoin_cons2, chooseGap_some, if_neg (by simp), mul_zero,
      pyInt_zero]
    rfl

/-- C8 amended: for `n ≥ 2` aligned segments the silence after segment
`i` is the character-switch gap exactly when the predecessor speaker
(segment `i-1`, or the stale last-segment speaker when `i = 0`) is
non-empty and differs from segment `i`'s speaker; segment `i+1` is never
consulted. -/
theorem c8_amended (sg cg : ℚ) (hg : 0 ≤ sg) (hc : 0 ≤ cg)
    (segs : List Segment) (h2 : 2 ≤ segs.length) :
    (mergeSegments sg cg segs).samples =
      assembleK (fun i => (pyInt ((sample_rate : ℚ) *
        (if predSpeaker segs i ≠ "" ∧ predSpeaker segs i ≠ speakerAt segs i
          then cg else sg))).toNat) segs := by
  have hne : segs ≠ [] := by
    intro e
    rw [e] at h2
    simp at h2
  rw [mergeSegments_eq_of_ne_nil sg cg hg hc segs hne]
  have hsome : (segs.getLast?).isSome := List.getLast?_isSome.mpr hne
  cases hq : segs.getLast? with
  | none => rw [hq] at hsome; simp at hsome
  | some u =>
    simp only [Option.map_some']
    rw [alignedJoin_eq_assembleK sg cg segs u.speaker]
    apply assembleK_congr
    intro i
    have hpred : predFrom u.speaker segs i = predSpeaker segs i := by
      cases i with
      | zero => simp [predFrom, predSpeaker, hq]
      | succ j => rfl
    rw [hpred, chooseGap_some]

/-- Witness for `c8_amended` at a concrete two-segment input. -/
theorem c8_amended_witness :
    (mergeSegments 0 0 [⟨[1], 24000, "A"⟩, ⟨[2], 24000, "B"⟩]).samples =
      assembleK (fun i => (pyInt ((sample_rate : ℚ) *
        (if predSpeaker [⟨[1], 24000, "A"⟩, ⟨[2], 24000, "B"⟩] i ≠ "" ∧
            predSpeaker [⟨[1], 24000, "A"⟩, ⟨[2], 24000, "B"⟩] i ≠
              speakerAt [⟨[1], 24000, "A"⟩, ⟨[2], 24000, "B"⟩] i
          then 0 else 0))).toNat) [⟨[1], 24000, "A"⟩, ⟨[2], 24000, "B"⟩] :=
  c8_amended 0 0 le_rfl le_rfl _ (by simp)

/-- C9: `merge_audio_files` always returns a boolean outcome; every
modelled exception (including the empty-input `np.concatenate` failure)
is caught and mapped to `False`, and for non-negative gaps the merge
succeeds exactly on non-empty input. -/
theorem c9_theorem (sg cg : ℚ) (hg : 0 ≤ sg) (hc : 0 ≤ cg)
    (segs : List Segment) :
    (mergeSegments sg cg segs).success = true ↔ segs ≠ [] := by
  constructor
  · intro hs he
    rw [he, mergeSegments_nil] at hs
    simp at hs
  · intro hne
    rw [mergeSegments_eq_of_ne_nil sg cg hg hc segs hne]

/-- Witness for `c9_theorem` at concrete inputs. -/
theorem c9_witness :
    (mergeSegments 0 0 [⟨[1], 24000, "A"⟩]).success = true :=
  (c9_theorem 0 0 le_rfl le_rfl _).mpr (by simp)

/-- C10: the generation loop keeps `segment_files` and `speakers` in
lockstep: both lists are the image of exactly the successfully generated
descriptors (with their indices), so they always have equal length, the
`i`-th entries of both come from the same descriptor, and a failed
descriptor appears in neither. -/
theorem c10_theorem (gen : ℕ → DubSeg → Bool) (segs : List DubSeg) :
    run_batch_generation gen segs =
      (((enumFrom 0 segs).filter fun p => gen p.1 p.2).map
          (fun p => segmentPathName p.1 (segVoice p.2)),
       ((enumFrom 0 segs).filter fun p => gen p.1 p.2).map
          (fun p => segVoice p.2)) ∧
    (run_batch_generation gen segs).1.length =
      (run_batch_generation gen segs).2.length := by
  have h := runLoop_eq gen segs 0
  refine ⟨h, ?_⟩
  show (runLoop gen 0 segs).1.length = (runLoop gen 0 segs).2.length
  rw [h]
  simp

end BatchDubbing
